import Mathlib

/-!
Verification of the CSV-to-Markdown conversion core.

The program is a GitHub action whose core is two pure functions over
strings: `parseCSV`, a single-pass CSV tokenizer producing a list of rows
(lists of trimmed cell strings), and `convertToMarkdownTable`, which turns
the parsed rows into an aligned Markdown pipe table.  Strings are modelled
as `List Char`; the JavaScript entry point's input/output validation is
modelled as an `Option`-returning function.
-/

namespace CsvToMd

/-- A string, modelled as a list of characters. -/
abbrev Str := List Char

/-- Code points treated as whitespace by JavaScript's `String.prototype.trim`:
WhiteSpace (TAB, VT, FF, SP, NBSP, ZWNBSP, Unicode space separators) and
LineTerminator (LF, CR, LS, PS). -/
def jsWhitespaceCodes : List Nat :=
  [0x9, 0xA, 0xB, 0xC, 0xD, 0x20, 0xA0, 0x1680,
   0x2000, 0x2001, 0x2002, 0x2003, 0x2004, 0x2005, 0x2006, 0x2007,
   0x2008, 0x2009, 0x200A, 0x2028, 0x2029, 0x202F, 0x205F, 0x3000, 0xFEFF]

/-- Whether a character is JavaScript whitespace (for `trim`). -/
def isJSWhitespace (c : Char) : Bool :=
  jsWhitespaceCodes.contains c.toNat

/-- JavaScript's `String.prototype.trim`: strip leading and trailing
whitespace. -/
def jsTrim (s : Str) : Str :=
  ((s.dropWhile isJSWhitespace).reverse.dropWhile isJSWhitespace).reverse

/-- Closing a row in `parseCSV`: push the trimmed cell buffer onto the row,
then keep the row only if at least one of its cells is non-empty
(`currentRow.push(currentCell.trim()); if (currentRow.some((cell) => cell.length > 0)) rows.push(currentRow);`).
Returns the list of rows emitted (one or zero). -/
def closeRow (row : List Str) (cell : Str) : List (List Str) :=
  if (row ++ [jsTrim cell]).any (fun c => c.length > 0) then [row ++ [jsTrim cell]] else []

/-- The character-scanning loop of `parseCSV`, with the loop state
(current row buffer, current cell buffer, inside-quotes flag) passed
explicitly; returns the rows emitted from this state to the end of input.
Mirrors the source branch by branch: a double quote is either an escaped
quote (inside quotes, next char also a quote: emit one literal quote,
advance two) or toggles the quote flag; an unquoted comma closes the cell;
an unquoted LF, CRLF, or CR closes the row (CRLF advancing two); any other
character is appended to the cell.  At end of input, a non-empty cell or
row buffer is finalized as a last row. -/
def parseCSVAux : Str → List Str → Str → Bool → List (List Str)
  | [], row, cell, _ =>
      if cell.length > 0 ∨ row.length > 0 then closeRow row cell else []
  | c :: rest, row, cell, insideQuotes =>
      if c = '"' then
        match rest with
        | [] => parseCSVAux [] row cell (!insideQuotes)
        | d :: rest2 =>
            if insideQuotes ∧ d = '"' then
              parseCSVAux rest2 row (cell ++ ['"']) true
            else
              parseCSVAux (d :: rest2) row cell (!insideQuotes)
      else if c = ',' ∧ insideQuotes = false then
        parseCSVAux rest (row ++ [jsTrim cell]) [] insideQuotes
      else if c = '\n' ∧ insideQuotes = false then
        closeRow row cell ++ parseCSVAux rest [] [] insideQuotes
      else if c = '\r' ∧ insideQuotes = false then
        match rest with
        | d :: rest2 =>
            if d = '\n' then
              closeRow row cell ++ parseCSVAux rest2 [] [] insideQuotes
            else
              closeRow row cell ++ parseCSVAux (d :: rest2) [] [] insideQuotes
        | [] => closeRow row cell ++ parseCSVAux [] [] [] insideQuotes
      else
        parseCSVAux rest row (cell ++ [c]) insideQuotes

/-- `parseCSV` from the source: scan the whole string starting with empty
buffers, outside quotes. -/
def parseCSV (s : Str) : List (List Str) :=
  parseCSVAux s [] [] false

/-- `String.prototype.padEnd(width)` with spaces: pad on the right up to
`w` characters; a longer string is returned unchanged. -/
def padEnd (s : Str) (w : Nat) : Str :=
  s ++ List.replicate (w - s.length) ' '

/-- `Math.max(...rows.map((row) => row.length))`: the maximum row length
(0 for no rows, matching that all lengths are nonnegative). -/
def columnCountOf (rows : List (List Str)) : Nat :=
  rows.foldl (fun m r => max m r.length) 0

/-- Right-pad a row with empty-string cells while its length is below the
column count (`while (normalizedRow.length < columnCount) normalizedRow.push('')`). -/
def normalizeRow (k : Nat) (row : List Str) : List Str :=
  row ++ List.replicate (k - row.length) []

/-- The width accumulated for column `i` by the source's nested `forEach`:
the maximum over all normalized rows of the length of cell `i`, starting
from 0. -/
def colWidthRaw (nrows : List (List Str)) (i : Nat) : Nat :=
  nrows.foldl (fun w row => max w (row.getD i []).length) 0

/-- The source's `columnWidths` after the minimum-width clamp: per column,
the maximum observed cell length, clamped below by 3. -/
def columnWidthsOf (rows : List (List Str)) : List Nat :=
  let k := columnCountOf rows
  let nrows := rows.map (normalizeRow k)
  (List.range k).map (fun i => max (colWidthRaw nrows i) 3)

/-- One formatted table line:
`` `| ${row.map((cell, index) => cell.padEnd(columnWidths[index])).join(' | ')} |` ``. -/
def formatRow (row : List Str) (widths : List Nat) : Str :=
  ['|', ' '] ++ List.intercalate [' ', '|', ' '] (List.zipWith padEnd row widths) ++ [' ', '|']

/-- The separator line:
`` `| ${columnWidths.map((width) => '-'.repeat(width)).join(' | ')} |` ``. -/
def separatorRowOf (widths : List Nat) : Str :=
  ['|', ' '] ++ List.intercalate [' ', '|', ' '] (widths.map (fun w => List.replicate w '-')) ++ [' ', '|']

/-- The `markdownRows` list built by `convertToMarkdownTable` for a
non-empty table: header line from normalized row 0, separator line, then
one data line per remaining normalized row. -/
def mdRowsOf (rows : List (List Str)) : List Str :=
  let k := columnCountOf rows
  let nrows := rows.map (normalizeRow k)
  let widths := columnWidthsOf rows
  formatRow (nrows.headD []) widths ::
    separatorRowOf widths ::
    (nrows.drop 1).map (fun r => formatRow r widths)

/-- `convertToMarkdownTable` from the source: empty string for an empty
table, otherwise the emitted lines joined by a single newline
(`markdownRows.join('\n')`). -/
def convertToMarkdownTable (rows : List (List Str)) : Str :=
  if rows.isEmpty then [] else List.intercalate ['\n'] (mdRowsOf rows)

/-- `csvToMarkdown` from the source: parse, then format. -/
def csvToMarkdown (s : Str) : Str :=
  convertToMarkdownTable (parseCSV s)

/-- The entry point `convertCSVToMarkdown`'s validation logic: fail
(`none`) when the input is empty or whitespace-only
(`!csvinput || !csvinput.trim()`), otherwise convert; fail when the result
is empty or whitespace-only (`!markdownTable || markdownTable.trim().length === 0`),
otherwise succeed with the markdown table. -/
def convertCSVToMarkdownOutcome (s : Str) : Option Str :=
  if (jsTrim s).isEmpty then none
  else
    let markdownTable := csvToMarkdown s
    if (jsTrim markdownTable).isEmpty then none else some markdownTable

/-- A character of a "blank" CSV line: a comma, or a whitespace character
other than a line terminator. -/
def BlankChar (c : Char) : Prop :=
  c = ',' ∨ (isJSWhitespace c = true ∧ c ≠ '\n' ∧ c ≠ '\r')

instance decidableBlankChar (c : Char) : Decidable (BlankChar c) := by
  unfold BlankChar
  infer_instance

/-- Following the claim's words for the column-width rule: the maximum
over all rows of the length of cell `i` (a missing cell counts as empty). -/
def specMaxCellLen (rows : List (List Str)) (i : Nat) : Nat :=
  rows.foldl (fun m r => max m (r.getD i []).length) 0

/-- Following the claim's words: the maximum observed length of cell `i`,
clamped below by 3. -/
def specColumnWidth (rows : List (List Str)) (i : Nat) : Nat :=
  max (specMaxCellLen rows i) 3

/-! ### Lemmas about `jsTrim` -/

lemma mem_of_mem_dropWhile {α : Type} {p : α → Bool} {c : α} {l : List α}
    (h : c ∈ l.dropWhile p) : c ∈ l := by
  have hl := List.takeWhile_append_dropWhile p l
  rw [← hl]
  exact List.mem_append.2 (Or.inr h)

lemma jsTrim_eq_nil_iff (l : Str) :
    jsTrim l = [] ↔ ∀ c ∈ l, isJSWhitespace c = true := by
  unfold jsTrim
  rw [List.reverse_eq_nil_iff, List.dropWhile_eq_nil_iff]
  constructor
  · intro h c hc
    have hl := List.takeWhile_append_dropWhile isJSWhitespace l
    rw [← hl] at hc
    rcases List.mem_append.1 hc with h1 | h2
    · exact List.mem_takeWhile_imp h1
    · exact h c (List.mem_reverse.2 h2)
  · intro h c hc
    exact h c (mem_of_mem_dropWhile (List.mem_reverse.1 hc))

lemma jsTrim_ne_nil_of_mem {l : Str} {c : Char} (hc : c ∈ l)
    (hw : isJSWhitespace c = false) : jsTrim l ≠ [] := by
  intro h
  have := (jsTrim_eq_nil_iff l).1 h c hc
  rw [hw] at this
  exact Bool.false_ne_true this

lemma dropWhile_ws_prepend {p : Char → Bool} :
    ∀ (u m : List Char), (∀ c ∈ u, p c = true) →
      (u ++ m).dropWhile p = m.dropWhile p := by
  intro u
  induction u with
  | nil => intro m _; rfl
  | cons a u ih =>
      intro m h
      have ha : p a = true := h a (List.mem_cons_self a u)
      simp only [List.cons_append, List.dropWhile_cons, ha, if_true]
      exact ih m (fun c hc => h c (List.mem_cons_of_mem a hc))

lemma dropWhile_append_of_ne_nil {p : Char → Bool} :
    ∀ (l t : List Char), l.dropWhile p ≠ [] →
      (l ++ t).dropWhile p = l.dropWhile p ++ t := by
  intro l
  induction l with
  | nil => intro t h; exact absurd rfl h
  | cons a l ih =>
      intro t h
      by_cases ha : p a = true
      · simp only [List.cons_append, List.dropWhile_cons, ha, if_true]
        simp only [List.dropWhile_cons, ha, if_true] at h
        exact ih t h
      · have ha' : p a = false := by
          cases hpa : p a
          · rfl
          · exact absurd hpa ha
        simp only [List.cons_append, List.dropWhile_cons, ha', Bool.false_eq_true, if_false]

lemma jsTrim_append_ws (l t : Str) (ht : ∀ c ∈ t, isJSWhitespace c = true) :
    jsTrim (l ++ t) = jsTrim l := by
  by_cases h0 : l.dropWhile isJSWhitespace = []
  · have hl : ∀ c ∈ l, isJSWhitespace c = true := List.dropWhile_eq_nil_iff.1 h0
    have h1 : jsTrim l = [] := (jsTrim_eq_nil_iff l).2 hl
    have h2 : jsTrim (l ++ t) = [] := by
      refine (jsTrim_eq_nil_iff _).2 ?_
      intro c hc
      rcases List.mem_append.1 hc with h | h
      · exact hl c h
      · exact ht c h
    rw [h1, h2]
  · unfold jsTrim
    rw [dropWhile_append_of_ne_nil _ _ h0, List.reverse_append,
        dropWhile_ws_prepend _ _ (fun c hc => ht c (List.mem_reverse.1 hc))]

lemma jsTrim_idem (l : Str) : jsTrim (jsTrim l) = jsTrim l := by
  have hm : (l.dropWhile isJSWhitespace).dropWhile isJSWhitespace
      = l.dropWhile isJSWhitespace := List.dropWhile_idempotent _ _
  set m := l.dropWhile isJSWhitespace with hmdef
  obtain ⟨u, hu⟩ : ∃ u, u ++ m.reverse.dropWhile isJSWhitespace = m.reverse :=
    ⟨m.reverse.takeWhile isJSWhitespace, List.takeWhile_append_dropWhile _ _⟩
  have hpre : ∃ t, (m.reverse.dropWhile isJSWhitespace).reverse ++ t = m := by
    refine ⟨u.reverse, ?_⟩
    have h2 := congrArg List.reverse hu
    simpa [List.reverse_append] using h2
  have hFb : ((m.reverse.dropWhile isJSWhitespace).reverse).dropWhile isJSWhitespace
      = (m.reverse.dropWhile isJSWhitespace).reverse := by
    obtain ⟨t, ht⟩ := hpre
    cases hb : (m.reverse.dropWhile isJSWhitespace).reverse with
    | nil => rfl
    | cons a bs =>
        rw [hb] at ht
        have hm' : m = a :: (bs ++ t) := by
          rw [← ht]; rfl
        have ha : isJSWhitespace a = false := by
          cases hpa : isJSWhitespace a
          · rfl
          · exfalso
            have h3 := hm
            rw [hm'] at h3
            simp only [List.dropWhile_cons, hpa, if_true] at h3
            have h4 := congrArg List.length h3
            have h5 := (List.dropWhile_sublist (l := bs ++ t) isJSWhitespace).length_le
            simp only [List.length_cons] at h4
            omega
        simp only [List.dropWhile_cons, ha, Bool.false_eq_true, if_false]
  show ((((((l.dropWhile isJSWhitespace).reverse.dropWhile isJSWhitespace).reverse).dropWhile
      isJSWhitespace).reverse).dropWhile isJSWhitespace).reverse = jsTrim l
  rw [← hmdef, hFb, List.reverse_reverse, List.dropWhile_idempotent]
  rfl

/-! ### Basic lemmas about the parser's primitive operations -/

lemma parseCSVAux_nil (row : List Str) (cell : Str) (b : Bool) :
    parseCSVAux [] row cell b = closeRow row cell := by
  show (if cell.length > 0 ∨ row.length > 0 then closeRow row cell else []) = closeRow row cell
  split
  · rfl
  · rename_i h
    push_neg at h
    obtain ⟨h1, h2⟩ := h
    have hc : cell = [] := List.eq_nil_of_length_eq_zero (by omega)
    have hr : row = [] := List.eq_nil_of_length_eq_zero (by omega)
    subst hc; subst hr
    simp [closeRow, jsTrim]

lemma closeRow_eq_nil (row : List Str) (cell : Str)
    (hrow : ∀ x ∈ row, x = []) (hcell : ∀ c ∈ cell, isJSWhitespace c = true) :
    closeRow row cell = [] := by
  unfold closeRow
  rw [(jsTrim_eq_nil_iff cell).2 hcell, if_neg]
  simp only [List.any_eq_true, not_exists, not_and, Bool.not_eq_true]
  intro x hx
  rcases List.mem_append.1 hx with h | h
  · rw [hrow x h]; decide
  · rw [List.mem_singleton.1 h]; decide

lemma closeRow_mem {row : List Str} {cell : Str} {r : List Str}
    (h : r ∈ closeRow row cell) : r = row ++ [jsTrim cell] := by
  unfold closeRow at h
  split at h
  · exact List.mem_singleton.1 h
  · exact absurd h (List.not_mem_nil r)

lemma closeRow_append_ws (row : List Str) (cell t : Str)
    (ht : ∀ c ∈ t, isJSWhitespace c = true) :
    closeRow row (cell ++ t) = closeRow row cell := by
  unfold closeRow
  rw [jsTrim_append_ws _ _ ht]

/-! ### Step lemmas for the quote handling of `parseCSVAux` -/

lemma parseCSVAux_escape (rest : Str) (row : List Str) (cell : Str) :
    parseCSVAux ('"' :: '"' :: rest) row cell true
      = parseCSVAux rest row (cell ++ ['"']) true := by
  simp [parseCSVAux]

lemma parseCSVAux_toggle_on (rest : Str) (row : List Str) (cell : Str) :
    parseCSVAux ('"' :: rest) row cell false
      = parseCSVAux rest row cell true := by
  cases rest with
  | nil => simp [parseCSVAux]
  | cons d rest2 => simp [parseCSVAux]

lemma parseCSVAux_toggle_off (rest : Str) (row : List Str) (cell : Str)
    (h : rest.head? ≠ some '"') :
    parseCSVAux ('"' :: rest) row cell true
      = parseCSVAux rest row cell false := by
  cases rest with
  | nil => simp [parseCSVAux]
  | cons d rest2 =>
      have hd : d ≠ '"' := by
        intro hcon
        rw [hcon] at h
        exact h rfl
      simp [parseCSVAux, hd]

/-! ### Unfolding equations of `parseCSVAux`, one per branch of the scan -/

lemma parseCSVAux_one_quote (row : List Str) (cell : Str) (b : Bool) :
    parseCSVAux ['"'] row cell b = closeRow row cell := by
  show parseCSVAux [] row cell (!b) = closeRow row cell
  exact parseCSVAux_nil row cell (!b)

lemma parseCSVAux_quote_cons (d : Char) (rest2 : Str) (row : List Str) (cell : Str) (b : Bool) :
    parseCSVAux ('"' :: d :: rest2) row cell b
      = if b = true ∧ d = '"' then parseCSVAux rest2 row (cell ++ ['"']) true
        else parseCSVAux (d :: rest2) row cell (!b) := by
  simp [parseCSVAux]

lemma parseCSVAux_comma (rest : Str) (row : List Str) (cell : Str) :
    parseCSVAux (',' :: rest) row cell false
      = parseCSVAux rest (row ++ [jsTrim cell]) [] false := by
  rcases rest with _ | ⟨d, rest2⟩ <;> simp [parseCSVAux]

lemma parseCSVAux_lf (rest : Str) (row : List Str) (cell : Str) :
    parseCSVAux ('\n' :: rest) row cell false
      = closeRow row cell ++ parseCSVAux rest [] [] false := by
  rcases rest with _ | ⟨d, rest2⟩ <;> simp [parseCSVAux]

lemma parseCSVAux_cr_lf (rest2 : Str) (row : List Str) (cell : Str) :
    parseCSVAux ('\r' :: '\n' :: rest2) row cell false
      = closeRow row cell ++ parseCSVAux rest2 [] [] false := by
  simp [parseCSVAux]

lemma parseCSVAux_cr (rest : Str) (row : List Str) (cell : Str)
    (h : rest.head? ≠ some '\n') :
    parseCSVAux ('\r' :: rest) row cell false
      = closeRow row cell ++ parseCSVAux rest [] [] false := by
  cases rest with
  | nil => simp [parseCSVAux]
  | cons d rest2 =>
      have hd : d ≠ '\n' := by
        intro hcon
        rw [hcon] at h
        exact h rfl
      simp [parseCSVAux, hd]

lemma parseCSVAux_other (c : Char) (rest : Str) (row : List Str) (cell : Str) (b : Bool)
    (hq : c ≠ '"') (hc : ¬(c = ',' ∧ b = false)) (hn : ¬(c = '\n' ∧ b = false))
    (hcr : ¬(c = '\r' ∧ b = false)) :
    parseCSVAux (c :: rest) row cell b = parseCSVAux rest row (cell ++ [c]) b := by
  rcases rest with _ | ⟨d, rest2⟩ <;> simp [parseCSVAux, hq, hc, hn, hcr]

/-! ### Invariants of the parser output: rows are non-empty and all cells
are fixed points of `jsTrim` -/

lemma closeRow_strong {row : List Str} {cell : Str} {r : List Str}
    (hrow : ∀ x ∈ row, jsTrim x = x) (hr : r ∈ closeRow row cell) :
    r ≠ [] ∧ ∀ x ∈ r, jsTrim x = x := by
  have h1 := closeRow_mem hr
  subst h1
  refine ⟨by simp, ?_⟩
  intro x hx
  rcases List.mem_append.1 hx with h | h
  · exact hrow x h
  · rw [List.mem_singleton.1 h]
    exact jsTrim_idem cell

lemma parseCSVAux_mem_strong :
    ∀ (n : Nat) (s : Str), s.length ≤ n → ∀ (row : List Str) (cell : Str) (b : Bool),
      (∀ x ∈ row, jsTrim x = x) →
      ∀ r ∈ parseCSVAux s row cell b, r ≠ [] ∧ ∀ x ∈ r, jsTrim x = x := by
  intro n
  induction n with
  | zero =>
      intro s hs row cell b hrow r hr
      have hsnil : s = [] := List.eq_nil_of_length_eq_zero (by omega)
      subst hsnil
      rw [parseCSVAux_nil] at hr
      exact closeRow_strong hrow hr
  | succ n ih =>
      intro s hs row cell b hrow r hr
      match s with
      | [] =>
          rw [parseCSVAux_nil] at hr
          exact closeRow_strong hrow hr
      | c :: rest =>
          simp only [List.length_cons] at hs
          by_cases hq : c = '"'
          · subst hq
            cases rest with
            | nil =>
                rw [parseCSVAux_one_quote] at hr
                exact closeRow_strong hrow hr
            | cons d rest2 =>
                rw [parseCSVAux_quote_cons] at hr
                simp only [List.length_cons] at hs
                split at hr
                · exact ih rest2 (by omega) row (cell ++ ['"']) true hrow r hr
                · exact ih (d :: rest2) (by simp only [List.length_cons]; omega)
                    row cell (!b) hrow r hr
          · by_cases hc : c = ',' ∧ b = false
            · obtain ⟨hc1, hc2⟩ := hc
              subst hc1; subst hc2
              rw [parseCSVAux_comma] at hr
              refine ih rest (by omega) _ [] false ?_ r hr
              intro x hx
              rcases List.mem_append.1 hx with h | h
              · exact hrow x h
              · rw [List.mem_singleton.1 h]
                exact jsTrim_idem cell
            · by_cases hn : c = '\n' ∧ b = false
              · obtain ⟨hn1, hn2⟩ := hn
                subst hn1; subst hn2
                rw [parseCSVAux_lf] at hr
                rcases List.mem_append.1 hr with h | h
                · exact closeRow_strong hrow h
                · exact ih rest (by omega) [] [] false (by simp) r h
              · by_cases hcr : c = '\r' ∧ b = false
                · obtain ⟨hcr1, hcr2⟩ := hcr
                  subst hcr1; subst hcr2
                  cases rest with
                  | nil =>
                      rw [parseCSVAux_cr [] row cell (by simp)] at hr
                      rcases List.mem_append.1 hr with h | h
                      · exact closeRow_strong hrow h
                      · exact ih [] (by simp) [] [] false (by simp) r h
                  | cons d rest2 =>
                      simp only [List.length_cons] at hs
                      by_cases hd : d = '\n'
                      · subst hd
                        rw [parseCSVAux_cr_lf] at hr
                        rcases List.mem_append.1 hr with h | h
                        · exact closeRow_strong hrow h
                        · exact ih rest2 (by omega) [] [] false (by simp) r h
                      · rw [parseCSVAux_cr (d :: rest2) row cell (by simp [hd])] at hr
                        rcases List.mem_append.1 hr with h | h
                        · exact closeRow_strong hrow h
                        · exact ih (d :: rest2) (by simp only [List.length_cons]; omega)
                            [] [] false (by simp) r h
                · rw [parseCSVAux_other c rest row cell b hq hc hn hcr] at hr
                  exact ih rest (by omega) row (cell ++ [c]) b hrow r hr

/-- Every row of the parser output is non-empty (has at least one cell). -/
lemma parseCSV_rows_ne_nil (s : Str) : ∀ r ∈ parseCSV s, r ≠ [] :=
  fun r hr => (parseCSVAux_mem_strong s.length s le_rfl [] [] false (by simp) r hr).1

/-- Every cell of the parser output is a fixed point of `jsTrim`. -/
lemma parseCSV_cells_trimmed (s : Str) :
    ∀ r ∈ parseCSV s, ∀ x ∈ r, jsTrim x = x :=
  fun r hr => (parseCSVAux_mem_strong s.length s le_rfl [] [] false (by simp) r hr).2

/-! ### A trailing line feed never changes the parse result -/

lemma parseCSVAux_single_newline (row : List Str) (cell : Str) (b : Bool) :
    parseCSVAux ['\n'] row cell b = parseCSVAux [] row cell b := by
  cases b with
  | false =>
      rw [parseCSVAux_lf, parseCSVAux_nil, parseCSVAux_nil]
      simp [closeRow, jsTrim]
  | true =>
      have h1 : parseCSVAux ['\n'] row cell true
          = parseCSVAux [] row (cell ++ ['\n']) true :=
        parseCSVAux_other '\n' [] row cell true (by decide) (by simp) (by simp) (by decide)
      rw [h1, parseCSVAux_nil, parseCSVAux_nil]
      exact closeRow_append_ws row cell ['\n'] (by decide)

lemma parseCSVAux_append_newline :
    ∀ (n : Nat) (s : Str), s.length ≤ n → ∀ (row : List Str) (cell : Str) (b : Bool),
      parseCSVAux (s ++ ['\n']) row cell b = parseCSVAux s row cell b := by
  intro n
  induction n with
  | zero =>
      intro s hs row cell b
      have hsnil : s = [] := List.eq_nil_of_length_eq_zero (by omega)
      subst hsnil
      exact parseCSVAux_single_newline row cell b
  | succ n ih =>
      intro s hs row cell b
      match s with
      | [] => exact parseCSVAux_single_newline row cell b
      | c :: rest =>
          simp only [List.length_cons] at hs
          by_cases hq : c = '"'
          · subst hq
            cases rest with
            | nil =>
                show parseCSVAux ('"' :: '\n' :: []) row cell b = _
                rw [parseCSVAux_quote_cons, parseCSVAux_one_quote]
                have hcond : ¬(b = true ∧ ('\n' : Char) = '"') := by
                  rintro ⟨-, h2⟩
                  exact absurd h2 (by decide)
                rw [if_neg hcond, parseCSVAux_single_newline, parseCSVAux_nil]
            | cons d rest2 =>
                simp only [List.length_cons] at hs
                show parseCSVAux ('"' :: d :: (rest2 ++ ['\n'])) row cell b = _
                rw [parseCSVAux_quote_cons, parseCSVAux_quote_cons]
                by_cases hcond : b = true ∧ d = '"'
                · rw [if_pos hcond, if_pos hcond]
                  exact ih rest2 (by omega) row (cell ++ ['"']) true
                · rw [if_neg hcond, if_neg hcond]
                  exact ih (d :: rest2) (by simp only [List.length_cons]; omega) row cell (!b)
          · by_cases hc : c = ',' ∧ b = false
            · obtain ⟨hc1, hc2⟩ := hc
              subst hc1; subst hc2
              show parseCSVAux (',' :: (rest ++ ['\n'])) row cell false = _
              rw [parseCSVAux_comma, parseCSVAux_comma]
              exact ih rest (by omega) _ [] false
            · by_cases hn : c = '\n' ∧ b = false
              · obtain ⟨hn1, hn2⟩ := hn
                subst hn1; subst hn2
                show parseCSVAux ('\n' :: (rest ++ ['\n'])) row cell false = _
                rw [parseCSVAux_lf, parseCSVAux_lf]
                rw [ih rest (by omega) [] [] false]
              · by_cases hcr : c = '\r' ∧ b = false
                · obtain ⟨hcr1, hcr2⟩ := hcr
                  subst hcr1; subst hcr2
                  cases rest with
                  | nil =>
                      show parseCSVAux ('\r' :: '\n' :: []) row cell false = _
                      rw [parseCSVAux_cr_lf, parseCSVAux_cr [] row cell (by simp)]
                  | cons d rest2 =>
                      simp only [List.length_cons] at hs
                      by_cases hd : d = '\n'
                      · subst hd
                        show parseCSVAux ('\r' :: '\n' :: (rest2 ++ ['\n'])) row cell false = _
                        rw [parseCSVAux_cr_lf, parseCSVAux_cr_lf]
                        rw [ih rest2 (by omega) [] [] false]
                      · show parseCSVAux ('\r' :: (d :: rest2 ++ ['\n'])) row cell false = _
                        rw [parseCSVAux_cr (d :: rest2 ++ ['\n']) row cell (by simp [hd]),
                            parseCSVAux_cr (d :: rest2) row cell (by simp [hd])]
                        rw [show d :: rest2 ++ ['\n'] = (d :: rest2) ++ ['\n'] from rfl]
                        rw [ih (d :: rest2) (by simp only [List.length_cons]; omega) [] [] false]
                · show parseCSVAux (c :: (rest ++ ['\n'])) row cell b = _
                  rw [parseCSVAux_other c (rest ++ ['\n']) row cell b hq hc hn hcr,
                      parseCSVAux_other c rest row cell b hq hc hn hcr]
                  exact ih rest (by omega) row (cell ++ [c]) b

/-- Appending a terminating line feed to any input does not change the
parse result: the end-of-input finalization behaves exactly like an
unquoted line terminator, so a trailing row is never lost. -/
lemma parseCSV_append_newline (s : Str) : parseCSV (s ++ ['\n']) = parseCSV s :=
  parseCSVAux_append_newline s.length s le_rfl [] [] false

/-! ### Blank lines (only commas and whitespace) contribute no rows -/

lemma blankChar_ne_quote {c : Char} (h : BlankChar c) : c ≠ '"' := by
  rcases h with h | ⟨h, -, -⟩
  · rw [h]; decide
  · intro hcon
    rw [hcon] at h
    exact absurd h (by decide)

/-- A closed row is dropped exactly when all of its cells (including the
just-trimmed final cell) are empty. -/
lemma closeRow_eq_nil_iff (row : List Str) (cell : Str) :
    closeRow row cell = [] ↔ ∀ x ∈ row ++ [jsTrim cell], x = [] := by
  unfold closeRow
  split
  · rename_i h
    simp only [List.any_eq_true, decide_eq_true_eq] at h
    obtain ⟨x, hx, hlen⟩ := h
    constructor
    · intro hcon
      exact absurd hcon (by simp)
    · intro hall
      exfalso
      rw [hall x hx] at hlen
      simp at hlen
  · rename_i h
    simp only [List.any_eq_true, decide_eq_true_eq, not_exists, not_and] at h
    constructor
    · intro _ x hx
      have h2 := h x hx
      exact List.eq_nil_of_length_eq_zero (by omega)
    · intro _
      rfl

/-- Scanning a run of commas and non-terminator whitespace from an
"all cells empty so far" state leaves the parser in an
"all cells empty so far" state, whatever input follows. -/
lemma blank_state :
    ∀ (blank : Str), (∀ c ∈ blank, BlankChar c) →
      ∀ (t : Str) (row : List Str) (cell : Str),
        (∀ x ∈ row, x = []) → (∀ c ∈ cell, isJSWhitespace c = true) →
        ∃ row' cell', (∀ x ∈ row', x = []) ∧ (∀ c ∈ cell', isJSWhitespace c = true) ∧
          parseCSVAux (blank ++ t) row cell false = parseCSVAux t row' cell' false := by
  intro blank
  induction blank with
  | nil =>
      intro _ t row cell hrow hcell
      exact ⟨row, cell, hrow, hcell, rfl⟩
  | cons c blank' ih =>
      intro hb t row cell hrow hcell
      have hbc : BlankChar c := hb c (List.mem_cons_self c blank')
      have hb' : ∀ x ∈ blank', BlankChar x :=
        fun x hx => hb x (List.mem_cons_of_mem c hx)
      rcases hbc with hcomma | ⟨hws, hnlf, hncr⟩
      · subst hcomma
        have hrow' : ∀ x ∈ row ++ [jsTrim cell], x = [] := by
          intro x hx
          rcases List.mem_append.1 hx with h | h
          · exact hrow x h
          · rw [List.mem_singleton.1 h]
            exact (jsTrim_eq_nil_iff cell).2 hcell
        obtain ⟨row', cell', h1, h2, h3⟩ := ih hb' t (row ++ [jsTrim cell]) [] hrow' (by simp)
        refine ⟨row', cell', h1, h2, ?_⟩
        show parseCSVAux (',' :: (blank' ++ t)) row cell false = _
        rw [parseCSVAux_comma]
        exact h3
      · have hq : c ≠ '"' := by
          intro hcon
          rw [hcon] at hws
          exact absurd hws (by decide)
        have hc : ¬(c = ',' ∧ (false : Bool) = false) := by
          rintro ⟨h1, -⟩
          rw [h1] at hws
          exact absurd hws (by decide)
        have hcell' : ∀ x ∈ cell ++ [c], isJSWhitespace x = true := by
          intro x hx
          rcases List.mem_append.1 hx with h | h
          · exact hcell x h
          · rw [List.mem_singleton.1 h]
            exact hws
        obtain ⟨row', cell', h1, h2, h3⟩ := ih hb' t row (cell ++ [c]) hrow hcell'
        refine ⟨row', cell', h1, h2, ?_⟩
        show parseCSVAux (c :: (blank' ++ t)) row cell false = _
        rw [parseCSVAux_other c _ row cell false hq hc
            (by rintro ⟨h1, -⟩; exact hnlf h1) (by rintro ⟨h1, -⟩; exact hncr h1)]
        exact h3

/-- A blank line closed by an unquoted line feed contributes no row. -/
lemma blank_absorb_lf (blank rest : Str) (hb : ∀ c ∈ blank, BlankChar c) :
    parseCSVAux (blank ++ '\n' :: rest) [] [] false = parseCSVAux rest [] [] false := by
  obtain ⟨row', cell', h1, h2, h3⟩ :=
    blank_state blank hb ('\n' :: rest) [] [] (by simp) (by simp)
  rw [h3, parseCSVAux_lf, closeRow_eq_nil row' cell' h1 h2]
  rfl

/-- A blank line closed by an unquoted CRLF contributes no row. -/
lemma blank_absorb_crlf (blank rest : Str) (hb : ∀ c ∈ blank, BlankChar c) :
    parseCSVAux (blank ++ '\r' :: '\n' :: rest) [] [] false
      = parseCSVAux rest [] [] false := by
  obtain ⟨row', cell', h1, h2, h3⟩ :=
    blank_state blank hb ('\r' :: '\n' :: rest) [] [] (by simp) (by simp)
  rw [h3, parseCSVAux_cr_lf, closeRow_eq_nil row' cell' h1 h2]
  rfl

/-- A blank line closed by an unquoted lone CR contributes no row. -/
lemma blank_absorb_cr (blank rest : Str) (hb : ∀ c ∈ blank, BlankChar c)
    (hrest : rest.head? ≠ some '\n') :
    parseCSVAux (blank ++ '\r' :: rest) [] [] false = parseCSVAux rest [] [] false := by
  obtain ⟨row', cell', h1, h2, h3⟩ :=
    blank_state blank hb ('\r' :: rest) [] [] (by simp) (by simp)
  rw [h3, parseCSVAux_cr rest row' cell' hrest, closeRow_eq_nil row' cell' h1 h2]
  rfl

/-- A whole-input blank string parses to no rows at all. -/
lemma parseCSV_blank_eq_nil (blank : Str) (hb : ∀ c ∈ blank, BlankChar c) :
    parseCSV blank = [] := by
  obtain ⟨row', cell', h1, h2, h3⟩ :=
    blank_state blank hb [] [] [] (by simp) (by simp)
  unfold parseCSV
  rw [← List.append_nil blank, h3, parseCSVAux_nil, closeRow_eq_nil row' cell' h1 h2]

/-! ### A run of ordinary characters is absorbed into the cell buffer -/

lemma literal_absorb :
    ∀ (v : Str), (∀ c ∈ v, c ≠ '"' ∧ c ≠ ',' ∧ c ≠ '\n' ∧ c ≠ '\r') →
      ∀ (row : List Str) (cell : Str),
        parseCSVAux v row cell false = parseCSVAux [] row (cell ++ v) false := by
  intro v
  induction v with
  | nil =>
      intro _ row cell
      rw [List.append_nil]
  | cons c v' ih =>
      intro hv row cell
      obtain ⟨h1, h2, h3, h4⟩ := hv c (List.mem_cons_self c v')
      have hv' : ∀ x ∈ v', x ≠ '"' ∧ x ≠ ',' ∧ x ≠ '\n' ∧ x ≠ '\r' :=
        fun x hx => hv x (List.mem_cons_of_mem c hx)
      rw [parseCSVAux_other c v' row cell false h1
          (by rintro ⟨hx, -⟩; exact h2 hx) (by rintro ⟨hx, -⟩; exact h3 hx)
          (by rintro ⟨hx, -⟩; exact h4 hx)]
      rw [ih hv' row (cell ++ [c]), List.append_assoc]
      rfl

/-! ### Generic list lemmas for the formatter -/

lemma intercalate_nil_list (sep : Str) : List.intercalate sep ([] : List Str) = [] := by
  simp [List.intercalate]

lemma intercalate_single (sep x : Str) : List.intercalate sep [x] = x := by
  simp [List.intercalate]

lemma intercalate_cons₂ (sep x y : Str) (ys : List Str) :
    List.intercalate sep (x :: y :: ys) = x ++ sep ++ List.intercalate sep (y :: ys) := by
  simp [List.intercalate, List.intersperse_cons_cons]

lemma intercalate_cons_exists (sep x : Str) (xs : List Str) :
    ∃ t, List.intercalate sep (x :: xs) = x ++ t := by
  cases xs with
  | nil => exact ⟨[], by rw [intercalate_single, List.append_nil]⟩
  | cons y ys =>
      exact ⟨sep ++ List.intercalate sep (y :: ys), by
        rw [intercalate_cons₂, List.append_assoc]⟩

lemma mem_intercalate (ch : Char) (sep : Str) :
    ∀ (ls : List Str), ch ∈ List.intercalate sep ls → ch ∈ sep ∨ ∃ l ∈ ls, ch ∈ l := by
  intro ls
  induction ls with
  | nil =>
      intro h
      rw [intercalate_nil_list] at h
      exact absurd h (List.not_mem_nil ch)
  | cons x ls ih =>
      intro h
      cases ls with
      | nil =>
          rw [intercalate_single] at h
          exact Or.inr ⟨x, by simp, h⟩
      | cons y ys =>
          rw [intercalate_cons₂] at h
          rcases List.mem_append.1 h with h1 | h2
          · rcases List.mem_append.1 h1 with h3 | h4
            · exact Or.inr ⟨x, by simp, h3⟩
            · exact Or.inl h4
          · rcases ih h2 with h5 | ⟨l, hl, hcl⟩
            · exact Or.inl h5
            · exact Or.inr ⟨l, by simp [hl], hcl⟩

lemma count_intercalate (ch : Char) (sep : Str) :
    ∀ (ls : List Str), (∀ l ∈ ls, ch ∉ l) →
      (List.intercalate sep ls).count ch = (ls.length - 1) * sep.count ch := by
  intro ls
  induction ls with
  | nil =>
      intro _
      rw [intercalate_nil_list]
      simp
  | cons x ls ih =>
      intro hls
      cases ls with
      | nil =>
          rw [intercalate_single]
          rw [List.count_eq_zero.2 (hls x (by simp))]
          simp
      | cons y ys =>
          rw [intercalate_cons₂, List.count_append, List.count_append]
          rw [List.count_eq_zero.2 (hls x (by simp))]
          rw [ih (fun l hl => hls l (List.mem_cons_of_mem x hl))]
          simp only [List.length_cons, Nat.add_sub_cancel]
          ring

lemma length_intercalate_strs (sep : Str) :
    ∀ (ls : List Str), ls ≠ [] →
      (List.intercalate sep ls).length
        = (ls.map List.length).sum + (ls.length - 1) * sep.length := by
  intro ls
  induction ls with
  | nil => intro h; exact absurd rfl h
  | cons x ls ih =>
      intro _
      cases ls with
      | nil =>
          rw [intercalate_single]
          simp
      | cons y ys =>
          rw [intercalate_cons₂, List.length_append, List.length_append]
          rw [ih (by simp)]
          simp only [List.length_cons, List.map_cons, List.sum_cons, Nat.add_sub_cancel]
          ring

/-! ### Lemmas about `padEnd` and cell padding -/

lemma length_padEnd (s : Str) (w : Nat) : (padEnd s w).length = max s.length w := by
  simp [padEnd]
  omega

lemma mem_padEnd {ch : Char} {s : Str} {w : Nat} (h : ch ∈ padEnd s w) :
    ch ∈ s ∨ ch = ' ' := by
  unfold padEnd at h
  rcases List.mem_append.1 h with h | h
  · exact Or.inl h
  · exact Or.inr (List.eq_of_mem_replicate h)

lemma mem_zipWith_padEnd :
    ∀ (row : List Str) (widths : List Nat) (l : Str),
      l ∈ List.zipWith padEnd row widths → ∃ cl ∈ row, ∃ w, l = padEnd cl w := by
  intro row
  induction row with
  | nil => intro widths l h; simp at h
  | cons a row ih =>
      intro widths l h
      cases widths with
      | nil => simp at h
      | cons w ws =>
          rw [List.zipWith_cons_cons] at h
          rcases List.mem_cons.1 h with h | h
          · exact ⟨a, by simp, w, h⟩
          · obtain ⟨cl, hcl, w', hw⟩ := ih ws l h
            exact ⟨cl, by simp [hcl], w', hw⟩

lemma map_length_zipWith_padEnd :
    ∀ {row : List Str} {widths : List Nat},
      List.Forall₂ (fun cl w => cl.length ≤ w) row widths →
      (List.zipWith padEnd row widths).map List.length = widths := by
  intro row widths h
  induction h with
  | nil => simp
  | @cons a b l₁ l₂ hab _ ih =>
      rw [List.zipWith_cons_cons, List.map_cons, length_padEnd, Nat.max_eq_right hab, ih]

/-! ### Fold-max bounds for column counts and widths -/

lemma init_le_foldl_max {α : Type} (f : α → Nat) :
    ∀ (l : List α) (a : Nat), a ≤ l.foldl (fun m x => max m (f x)) a := by
  intro l
  induction l with
  | nil => intro a; simp
  | cons x l ih =>
      intro a
      calc a ≤ max a (f x) := Nat.le_max_left _ _
        _ ≤ _ := ih (max a (f x))

lemma le_foldl_max_of_mem {α : Type} (f : α → Nat) :
    ∀ (l : List α) (a : Nat) (x : α), x ∈ l → f x ≤ l.foldl (fun m y => max m (f y)) a := by
  intro l
  induction l with
  | nil => intro a x hx; exact absurd hx (List.not_mem_nil x)
  | cons y l ih =>
      intro a x hx
      rcases List.mem_cons.1 hx with h | h
      · subst h
        calc f x ≤ max a (f x) := Nat.le_max_right _ _
          _ ≤ _ := init_le_foldl_max f l _
      · exact ih _ x h

lemma length_le_columnCount {rows : List (List Str)} {r : List Str} (h : r ∈ rows) :
    r.length ≤ columnCountOf rows :=
  le_foldl_max_of_mem _ rows 0 r h

lemma one_le_columnCount {rows : List (List Str)} {r : List Str}
    (h : r ∈ rows) (hne : r ≠ []) : 1 ≤ columnCountOf rows := by
  have h1 : 1 ≤ r.length := List.length_pos.2 hne
  exact le_trans h1 (length_le_columnCount h)

/-! ### Lemmas about row normalization and column widths -/

lemma length_normalizeRow (k : Nat) (r : List Str) (h : r.length ≤ k) :
    (normalizeRow k r).length = k := by
  simp [normalizeRow]
  omega

lemma mem_normalizeRow {cl : Str} {k : Nat} {r : List Str} (h : cl ∈ normalizeRow k r) :
    cl ∈ r ∨ cl = [] := by
  unfold normalizeRow at h
  rcases List.mem_append.1 h with h | h
  · exact Or.inl h
  · exact Or.inr (List.eq_of_mem_replicate h)

lemma getD_append_replicate_nil (r : List Str) (m i : Nat) :
    (r ++ List.replicate m ([] : Str)).getD i [] = r.getD i [] := by
  rw [List.getD_eq_getElem?_getD, List.getD_eq_getElem?_getD, List.getElem?_append]
  by_cases h : i < r.length
  · rw [if_pos h]
  · rw [if_neg h]
    rw [List.getElem?_replicate]
    rw [List.getElem?_eq_none (by omega)]
    by_cases h2 : i - r.length < m
    · rw [if_pos h2]
      rfl
    · rw [if_neg h2]

lemma getD_normalizeRow (k : Nat) (r : List Str) (i : Nat) :
    (normalizeRow k r).getD i [] = r.getD i [] := by
  unfold normalizeRow
  exact getD_append_replicate_nil r _ i

lemma length_columnWidthsOf (rows : List (List Str)) :
    (columnWidthsOf rows).length = columnCountOf rows := by
  simp [columnWidthsOf]

lemma mem_columnWidthsOf_ge_three {rows : List (List Str)} {w : Nat}
    (h : w ∈ columnWidthsOf rows) : 3 ≤ w := by
  unfold columnWidthsOf at h
  simp only [List.mem_map] at h
  obtain ⟨i, -, hw⟩ := h
  exact hw ▸ Nat.le_max_right _ 3

lemma columnWidthsOf_getD (rows : List (List Str)) (i : Nat) (h : i < columnCountOf rows) :
    (columnWidthsOf rows).getD i 0
      = max (colWidthRaw (rows.map (normalizeRow (columnCountOf rows))) i) 3 := by
  unfold columnWidthsOf
  rw [List.getD_eq_getElem?_getD, List.getElem?_map, List.getElem?_range h]
  rfl

lemma colWidthRaw_normalize (rows : List (List Str)) (k i : Nat) :
    colWidthRaw (rows.map (normalizeRow k)) i = specMaxCellLen rows i := by
  unfold colWidthRaw specMaxCellLen
  rw [List.foldl_map]
  have hfun : (fun (w : Nat) (r : List Str) => max w ((normalizeRow k r).getD i []).length)
      = fun (w : Nat) (r : List Str) => max w (r.getD i []).length := by
    funext w r
    rw [getD_normalizeRow]
  rw [hfun]

/-! ### Per-line facts about the formatted table -/

lemma cells_le_widths (rows : List (List Str)) (r : List Str)
    (hr : r ∈ rows.map (normalizeRow (columnCountOf rows))) :
    List.Forall₂ (fun cl w => cl.length ≤ w) r (columnWidthsOf rows) := by
  obtain ⟨r0, hr0, hnorm⟩ := List.mem_map.1 hr
  have hlen : r.length = columnCountOf rows := by
    rw [← hnorm]
    exact length_normalizeRow _ _ (length_le_columnCount hr0)
  rw [List.forall₂_iff_get]
  refine ⟨by rw [hlen, length_columnWidthsOf], ?_⟩
  intro i h₁ h₂
  have hik : i < columnCountOf rows := by
    rw [length_columnWidthsOf] at h₂
    exact h₂
  have hw : (columnWidthsOf rows).get ⟨i, h₂⟩
      = max (colWidthRaw (rows.map (normalizeRow (columnCountOf rows))) i) 3 := by
    have h3 := columnWidthsOf_getD rows i hik
    rw [List.getD_eq_getElem?_getD, List.getElem?_eq_getElem h₂] at h3
    simpa using h3
  have hcell : r.get ⟨i, h₁⟩ = r.getD i [] := by
    rw [List.getD_eq_getElem?_getD, List.getElem?_eq_getElem h₁]
    rfl
  rw [hw, hcell]
  have hb : (r.getD i []).length
      ≤ colWidthRaw (rows.map (normalizeRow (columnCountOf rows))) i := by
    unfold colWidthRaw
    exact le_foldl_max_of_mem (fun row => (row.getD i []).length) _ 0 r hr
  omega

lemma pipe_mem_formatRow (row : List Str) (widths : List Nat) :
    '|' ∈ formatRow row widths := by
  unfold formatRow
  simp

lemma mem_formatRow {ch : Char} {row : List Str} {widths : List Nat}
    (h : ch ∈ formatRow row widths) :
    ch = '|' ∨ ch = ' ' ∨ ∃ cl ∈ row, ch ∈ cl := by
  unfold formatRow at h
  rcases List.mem_append.1 h with h | h
  · rcases List.mem_append.1 h with h | h
    · rcases List.mem_cons.1 h with h | h
      · exact Or.inl h
      · rcases List.mem_cons.1 h with h | h
        · exact Or.inr (Or.inl h)
        · exact absurd h (List.not_mem_nil ch)
    · rcases mem_intercalate ch _ _ h with h | ⟨l, hl, hcl⟩
      · rcases List.mem_cons.1 h with h | h
        · exact Or.inr (Or.inl h)
        · rcases List.mem_cons.1 h with h | h
          · exact Or.inl h
          · rcases List.mem_cons.1 h with h | h
            · exact Or.inr (Or.inl h)
            · exact absurd h (List.not_mem_nil ch)
      · obtain ⟨cl, hcl2, w, hw⟩ := mem_zipWith_padEnd _ _ _ hl
        rw [hw] at hcl
        rcases mem_padEnd hcl with h | h
        · exact Or.inr (Or.inr ⟨cl, hcl2, h⟩)
        · exact Or.inr (Or.inl h)
  · rcases List.mem_cons.1 h with h | h
    · exact Or.inr (Or.inl h)
    · rcases List.mem_cons.1 h with h | h
      · exact Or.inl h
      · exact absurd h (List.not_mem_nil ch)

lemma mem_separatorRowOf {ch : Char} {widths : List Nat}
    (h : ch ∈ separatorRowOf widths) :
    ch = '|' ∨ ch = ' ' ∨ ch = '-' := by
  unfold separatorRowOf at h
  rcases List.mem_append.1 h with h | h
  · rcases List.mem_append.1 h with h | h
    · rcases List.mem_cons.1 h with h | h
      · exact Or.inl h
      · rcases List.mem_cons.1 h with h | h
        · exact Or.inr (Or.inl h)
        · exact absurd h (List.not_mem_nil ch)
    · rcases mem_intercalate ch _ _ h with h | ⟨l, hl, hcl⟩
      · rcases List.mem_cons.1 h with h | h
        · exact Or.inr (Or.inl h)
        · rcases List.mem_cons.1 h with h | h
          · exact Or.inl h
          · rcases List.mem_cons.1 h with h | h
            · exact Or.inr (Or.inl h)
            · exact absurd h (List.not_mem_nil ch)
      · obtain ⟨w, -, hw⟩ := List.mem_map.1 hl
        rw [← hw] at hcl
        exact Or.inr (Or.inr (List.eq_of_mem_replicate hcl))
  · rcases List.mem_cons.1 h with h | h
    · exact Or.inr (Or.inl h)
    · rcases List.mem_cons.1 h with h | h
      · exact Or.inl h
      · exact absurd h (List.not_mem_nil ch)

lemma count_pipe_formatRow (row : List Str) (widths : List Nat)
    (hlen : row.length = widths.length) (hne : row ≠ [])
    (hrow : ∀ cl ∈ row, '|' ∉ cl) :
    (formatRow row widths).count '|' = row.length + 1 := by
  unfold formatRow
  rw [List.count_append, List.count_append]
  have hpieces : ∀ l ∈ List.zipWith padEnd row widths, '|' ∉ l := by
    intro l hl hmem
    obtain ⟨cl, hcl, w, hw⟩ := mem_zipWith_padEnd row widths l hl
    rw [hw] at hmem
    rcases mem_padEnd hmem with h | h
    · exact hrow cl hcl h
    · exact absurd h (by decide)
  rw [count_intercalate _ _ _ hpieces]
  rw [List.length_zipWith, hlen, Nat.min_self]
  have h1 : widths.length ≥ 1 := by
    rw [← hlen]
    exact List.length_pos.2 hne
  have c1 : List.count '|' ['|', ' '] = 1 := by decide
  have c2 : List.count '|' [' ', '|'] = 1 := by decide
  have c3 : List.count '|' [' ', '|', ' '] = 1 := by decide
  rw [c1, c2, c3]
  omega

lemma count_pipe_separatorRowOf (widths : List Nat) (hne : widths ≠ []) :
    (separatorRowOf widths).count '|' = widths.length + 1 := by
  unfold separatorRowOf
  rw [List.count_append, List.count_append]
  have hpieces : ∀ l ∈ widths.map (fun w => List.replicate w '-'), '|' ∉ l := by
    intro l hl hmem
    obtain ⟨w, -, hw⟩ := List.mem_map.1 hl
    rw [← hw] at hmem
    exact absurd (List.eq_of_mem_replicate hmem) (by decide)
  rw [count_intercalate _ _ _ hpieces]
  rw [List.length_map]
  have h1 : widths.length ≥ 1 := List.length_pos.2 hne
  have c1 : List.count '|' ['|', ' '] = 1 := by decide
  have c2 : List.count '|' [' ', '|'] = 1 := by decide
  have c3 : List.count '|' [' ', '|', ' '] = 1 := by decide
  rw [c1, c2, c3]
  omega

lemma length_formatRow (row : List Str) (widths : List Nat)
    (h : List.Forall₂ (fun cl w => cl.length ≤ w) row widths) (hne : widths ≠ []) :
    (formatRow row widths).length = widths.sum + 3 * widths.length + 1 := by
  unfold formatRow
  rw [List.length_append, List.length_append]
  have hlen2 : row.length = widths.length := List.Forall₂.length_eq h
  have hzne : List.zipWith padEnd row widths ≠ [] := by
    intro hcon
    have h2 := congrArg List.length hcon
    rw [List.length_zipWith, hlen2, Nat.min_self] at h2
    exact hne (List.eq_nil_of_length_eq_zero (by simpa using h2))
  rw [length_intercalate_strs _ _ hzne, map_length_zipWith_padEnd h]
  rw [List.length_zipWith, hlen2, Nat.min_self]
  have h1 : widths.length ≥ 1 := List.length_pos.2 hne
  simp only [List.length_cons, List.length_nil]
  omega

lemma length_separatorRowOf (widths : List Nat) (hne : widths ≠ []) :
    (separatorRowOf widths).length = widths.sum + 3 * widths.length + 1 := by
  unfold separatorRowOf
  rw [List.length_append, List.length_append]
  have hmne : widths.map (fun w => List.replicate w '-') ≠ [] := by
    intro hcon
    exact hne (List.map_eq_nil_iff.1 hcon)
  rw [length_intercalate_strs _ _ hmne]
  have hml : (widths.map (fun w => List.replicate w '-')).map List.length = widths := by
    rw [List.map_map]
    have : (List.length ∘ fun w => List.replicate w '-') = id := by
      funext w
      simp
    rw [this, List.map_id]
  rw [hml, List.length_map]
  have h1 : widths.length ≥ 1 := List.length_pos.2 hne
  simp only [List.length_cons, List.length_nil]
  omega

/-! ### Structure of the emitted line list and the joined output -/

lemma headD_mem {α : Type} {l : List α} (h : l ≠ []) (d : α) : l.headD d ∈ l := by
  cases l with
  | nil => exact absurd rfl h
  | cons x xs => simp

lemma mdRowsOf_eq_cons (rows : List (List Str)) :
    mdRowsOf rows
      = formatRow ((rows.map (normalizeRow (columnCountOf rows))).headD [])
          (columnWidthsOf rows)
        :: separatorRowOf (columnWidthsOf rows)
        :: ((rows.map (normalizeRow (columnCountOf rows))).drop 1).map
             (fun r => formatRow r (columnWidthsOf rows)) := rfl

lemma mem_mdRowsOf {rows : List (List Str)} {l : Str} (hrows : rows ≠ [])
    (h : l ∈ mdRowsOf rows) :
    (∃ r ∈ rows.map (normalizeRow (columnCountOf rows)),
        l = formatRow r (columnWidthsOf rows))
      ∨ l = separatorRowOf (columnWidthsOf rows) := by
  rw [mdRowsOf_eq_cons] at h
  have hmapne : rows.map (normalizeRow (columnCountOf rows)) ≠ [] := by
    intro hcon
    exact hrows (List.map_eq_nil_iff.1 hcon)
  rcases List.mem_cons.1 h with h | h
  · exact Or.inl ⟨_, headD_mem hmapne [], h⟩
  · rcases List.mem_cons.1 h with h | h
    · exact Or.inr h
    · obtain ⟨r, hr, hl⟩ := List.mem_map.1 h
      exact Or.inl ⟨r, List.mem_of_mem_drop hr, hl.symm⟩

lemma convertToMarkdownTable_of_ne_nil {rows : List (List Str)} (h : rows ≠ []) :
    convertToMarkdownTable rows = List.intercalate ['\n'] (mdRowsOf rows) := by
  unfold convertToMarkdownTable
  rw [if_neg (by simpa [List.isEmpty_iff] using h)]

lemma convertToMarkdownTable_ne_nil {rows : List (List Str)} (h : rows ≠ []) :
    convertToMarkdownTable rows ≠ [] := by
  rw [convertToMarkdownTable_of_ne_nil h, mdRowsOf_eq_cons]
  obtain ⟨t, ht⟩ := intercalate_cons_exists ['\n'] _ _
  rw [ht]
  simp [formatRow]

lemma length_mdRowsOf {rows : List (List Str)} (h : rows ≠ []) :
    (mdRowsOf rows).length = rows.length + 1 := by
  rw [mdRowsOf_eq_cons]
  simp only [List.length_cons, List.length_map, List.length_drop]
  have h1 : rows.length ≥ 1 := List.length_pos.2 h
  omega

lemma count_newline_convert {rows : List (List Str)} (h : rows ≠ [])
    (hcl : ∀ r ∈ rows, ∀ cl ∈ r, '\n' ∉ cl) :
    (convertToMarkdownTable rows).count '\n' = rows.length := by
  rw [convertToMarkdownTable_of_ne_nil h]
  have hlines : ∀ l ∈ mdRowsOf rows, '\n' ∉ l := by
    intro l hl hmem
    rcases mem_mdRowsOf h hl with ⟨r, hr, hleq⟩ | hleq
    · rw [hleq] at hmem
      rcases mem_formatRow hmem with h1 | h1 | ⟨cl, hcl2, hmem2⟩
      · exact absurd h1 (by decide)
      · exact absurd h1 (by decide)
      · obtain ⟨r0, hr0, hnorm⟩ := List.mem_map.1 hr
        rw [← hnorm] at hcl2
        rcases mem_normalizeRow hcl2 with h2 | h2
        · exact hcl r0 hr0 cl h2 hmem2
        · rw [h2] at hmem2
          exact absurd hmem2 (List.not_mem_nil _)
    · rw [hleq] at hmem
      rcases mem_separatorRowOf hmem with h1 | h1 | h1 <;> exact absurd h1 (by decide)
  rw [count_intercalate _ _ _ hlines, length_mdRowsOf h]
  simp

/-! ### The column widths list of a non-trivial parse is non-empty -/

lemma widths_ne_nil {s : Str} (h : parseCSV s ≠ []) :
    columnWidthsOf (parseCSV s) ≠ [] := by
  obtain ⟨r, hr⟩ := List.exists_mem_of_ne_nil _ h
  have hk := one_le_columnCount hr (parseCSV_rows_ne_nil s r hr)
  intro hcon
  have h2 := congrArg List.length hcon
  rw [length_columnWidthsOf] at h2
  simp only [List.length_nil] at h2
  omega

/-! ### Line-level facts for parse outputs -/

lemma count_pipe_mdRows {s : Str} (h : parseCSV s ≠ [])
    (hp : ∀ r ∈ parseCSV s, ∀ cl ∈ r, '|' ∉ cl) :
    ∀ l ∈ mdRowsOf (parseCSV s), l.count '|' = columnCountOf (parseCSV s) + 1 := by
  intro l hl
  rcases mem_mdRowsOf h hl with ⟨r, hr, hleq⟩ | hleq
  · obtain ⟨r0, hr0, hnorm⟩ := List.mem_map.1 hr
    have hrlen : r.length = columnCountOf (parseCSV s) := by
      rw [← hnorm]
      exact length_normalizeRow _ _ (length_le_columnCount hr0)
    have hwlen : r.length = (columnWidthsOf (parseCSV s)).length := by
      rw [hrlen, length_columnWidthsOf]
    have hk : 1 ≤ columnCountOf (parseCSV s) :=
      one_le_columnCount hr0 (parseCSV_rows_ne_nil s r0 hr0)
    have hrne : r ≠ [] := by
      intro hcon
      rw [hcon] at hrlen
      simp only [List.length_nil] at hrlen
      omega
    have hrp : ∀ cl ∈ r, '|' ∉ cl := by
      intro cl hcl hmem
      rw [← hnorm] at hcl
      rcases mem_normalizeRow hcl with h1 | h1
      · exact hp r0 hr0 cl h1 hmem
      · rw [h1] at hmem
        exact absurd hmem (List.not_mem_nil _)
    rw [hleq, count_pipe_formatRow r _ hwlen hrne hrp, hrlen]
  · rw [hleq, count_pipe_separatorRowOf _ (widths_ne_nil h), length_columnWidthsOf]

lemma length_mdRows {s : Str} (h : parseCSV s ≠ []) :
    ∀ l ∈ mdRowsOf (parseCSV s),
      l.length = (columnWidthsOf (parseCSV s)).sum
        + 3 * columnCountOf (parseCSV s) + 1 := by
  intro l hl
  have hwne := widths_ne_nil h
  rcases mem_mdRowsOf h hl with ⟨r, hr, hleq⟩ | hleq
  · rw [hleq, length_formatRow r _ (cells_le_widths _ r hr) hwne, length_columnWidthsOf]
  · rw [hleq, length_separatorRowOf _ hwne, length_columnWidthsOf]

/-! ### The entry point on inputs whose parse is non-trivial -/

lemma csvToMarkdown_trim_ne_nil {s : Str} (h : parseCSV s ≠ []) :
    jsTrim (csvToMarkdown s) ≠ [] := by
  unfold csvToMarkdown
  rw [convertToMarkdownTable_of_ne_nil h, mdRowsOf_eq_cons]
  refine jsTrim_ne_nil_of_mem (c := '|') ?_ (by decide)
  obtain ⟨t, ht⟩ := intercalate_cons_exists ['\n'] _ _
  rw [ht]
  exact List.mem_append.2 (Or.inl (pipe_mem_formatRow _ _))

lemma outcome_some {s : Str} (h1 : jsTrim s ≠ []) (h2 : parseCSV s ≠ []) :
    convertCSVToMarkdownOutcome s = some (csvToMarkdown s) := by
  unfold convertCSVToMarkdownOutcome
  rw [if_neg (by simpa [List.isEmpty_iff] using h1),
      if_neg (by simpa [List.isEmpty_iff] using csvToMarkdown_trim_ne_nil h2)]

/-! ## The claims -/

/-- C1, counterexample: the two-character input `""` passes the entry
point's input validation (its trim is non-empty), yet parsing drops the
all-empty row, the formatter returns the empty string, and the entry
point's output-validation failure branch is reached — so the branch is
not unreachable for validated inputs. -/
theorem spec_c1_counterexample :
    jsTrim ['"', '"'] ≠ [] ∧ csvToMarkdown ['"', '"'] = []
      ∧ convertCSVToMarkdownOutcome ['"', '"'] = none := by
  decide

/-- C1 (amended): for every input whose trim is non-empty AND whose parse
produces at least one row, the full conversion yields a non-empty,
non-whitespace-only output and the entry point succeeds; the
output-validation failure branch is reachable only for validated inputs
whose parse yields zero rows (such as `""`). -/
theorem spec_c1_amended (s : Str) (h1 : jsTrim s ≠ []) (h2 : parseCSV s ≠ []) :
    convertCSVToMarkdownOutcome s = some (csvToMarkdown s)
      ∧ jsTrim (csvToMarkdown s) ≠ [] :=
  ⟨outcome_some h1 h2, csvToMarkdown_trim_ne_nil h2⟩

/-- Witness for C1 (amended) at the input `"a"`. -/
theorem spec_c1_witness :
    jsTrim ['a'] ≠ [] ∧ parseCSV ['a'] ≠ []
      ∧ (convertCSVToMarkdownOutcome ['a'] = some (csvToMarkdown ['a'])
          ∧ jsTrim (csvToMarkdown ['a']) ≠ []) :=
  ⟨by decide, by decide, spec_c1_amended ['a'] (by decide) (by decide)⟩

/-- C2: inside a quoted field a double-quote followed by another
double-quote appends exactly one literal quote to the cell and advances
two positions; any other double-quote toggles the inside-quotes flag and
advances one position (shown for both flag values); and the concrete
escaped-quote input parses to the cell `He said "Hello" to me`. -/
theorem spec_c2 :
    (∀ (rest : Str) (row : List Str) (cell : Str),
        parseCSVAux ('"' :: '"' :: rest) row cell true
          = parseCSVAux rest row (cell ++ ['"']) true)
    ∧ (∀ (rest : Str) (row : List Str) (cell : Str),
        parseCSVAux ('"' :: rest) row cell false = parseCSVAux rest row cell true)
    ∧ (∀ (rest : Str) (row : List Str) (cell : Str), rest.head? ≠ some '"' →
        parseCSVAux ('"' :: rest) row cell true = parseCSVAux rest row cell false)
    ∧ parseCSV ("Name,Quote\n\"John\",\"He said \"\"Hello\"\" to me\"").toList
        = [[("Name").toList, ("Quote").toList],
           [("John").toList, ("He said \"Hello\" to me").toList]] :=
  ⟨parseCSVAux_escape, parseCSVAux_toggle_on, parseCSVAux_toggle_off, by decide⟩

/-- Witness for C2's toggle-off rule at end of input. -/
theorem spec_c2_witness :
    ([] : Str).head? ≠ some '"'
      ∧ parseCSVAux ['"'] [] [] true = parseCSVAux [] [] [] false :=
  ⟨by decide, spec_c2.2.2.1 [] [] [] (by decide)⟩

/-- C3: every way a row is closed — unquoted line feed, unquoted CRLF,
unquoted lone carriage return, or end-of-input finalization — goes
through the same guarded `closeRow`, which appends the row exactly when
at least one cell is non-empty after trimming (so rows of all-empty
cells, however produced, are dropped); consequently a line made solely
of commas and whitespace contributes no row under any of the three line
terminators, a whole input of such characters parses to zero rows, such
a line produces no line in the formatted output, and a line of
quoted-empty cells (`"",""`) is dropped as well. -/
theorem spec_c3 :
    (∀ (row : List Str) (cell : Str),
        closeRow row cell = [] ↔ ∀ x ∈ row ++ [jsTrim cell], x = [])
    ∧ (∀ (rest : Str) (row : List Str) (cell : Str),
        parseCSVAux ('\n' :: rest) row cell false
          = closeRow row cell ++ parseCSVAux rest [] [] false)
    ∧ (∀ (rest2 : Str) (row : List Str) (cell : Str),
        parseCSVAux ('\r' :: '\n' :: rest2) row cell false
          = closeRow row cell ++ parseCSVAux rest2 [] [] false)
    ∧ (∀ (rest : Str) (row : List Str) (cell : Str), rest.head? ≠ some '\n' →
        parseCSVAux ('\r' :: rest) row cell false
          = closeRow row cell ++ parseCSVAux rest [] [] false)
    ∧ (∀ (row : List Str) (cell : Str) (b : Bool),
        parseCSVAux [] row cell b = closeRow row cell)
    ∧ (∀ (blank rest : Str), (∀ c ∈ blank, BlankChar c) →
        parseCSVAux (blank ++ '\n' :: rest) [] [] false = parseCSVAux rest [] [] false
        ∧ parseCSVAux (blank ++ '\r' :: '\n' :: rest) [] [] false
            = parseCSVAux rest [] [] false
        ∧ (rest.head? ≠ some '\n' →
            parseCSVAux (blank ++ '\r' :: rest) [] [] false
              = parseCSVAux rest [] [] false))
    ∧ (∀ (blank : Str), (∀ c ∈ blank, BlankChar c) → parseCSV blank = [])
    ∧ (∀ (blank rest : Str), (∀ c ∈ blank, BlankChar c) →
        csvToMarkdown (blank ++ '\n' :: rest) = csvToMarkdown rest
        ∧ csvToMarkdown (blank ++ '\r' :: '\n' :: rest) = csvToMarkdown rest
        ∧ (rest.head? ≠ some '\n' →
            csvToMarkdown (blank ++ '\r' :: rest) = csvToMarkdown rest))
    ∧ parseCSV ("\"\",\"\"\nx").toList = [[['x']]] := by
  refine ⟨closeRow_eq_nil_iff, parseCSVAux_lf, parseCSVAux_cr_lf, parseCSVAux_cr,
    parseCSVAux_nil, ?_, parseCSV_blank_eq_nil, ?_, by decide⟩
  · intro blank rest hb
    exact ⟨blank_absorb_lf blank rest hb, blank_absorb_crlf blank rest hb,
      blank_absorb_cr blank rest hb⟩
  · intro blank rest hb
    refine ⟨?_, ?_, ?_⟩
    · unfold csvToMarkdown parseCSV
      rw [blank_absorb_lf blank rest hb]
    · unfold csvToMarkdown parseCSV
      rw [blank_absorb_crlf blank rest hb]
    · intro hrest
      unfold csvToMarkdown parseCSV
      rw [blank_absorb_cr blank rest hb hrest]

/-- Witness for C3: the blank line `","` closed by a lone carriage
return before the line `"a"` contributes nothing, at the parser and at
the formatted output. -/
theorem spec_c3_witness :
    (∀ c ∈ ([','] : Str), BlankChar c)
      ∧ (['a'] : Str).head? ≠ some '\n'
      ∧ parseCSVAux ([','] ++ '\r' :: ['a']) [] [] false = parseCSVAux ['a'] [] [] false
      ∧ csvToMarkdown ([','] ++ '\r' :: ['a']) = csvToMarkdown ['a'] :=
  ⟨by decide, by decide,
    (spec_c3.2.2.2.2.2.1 [','] ['a'] (by decide)).2.2 (by decide),
    (spec_c3.2.2.2.2.2.2.2.1 [','] ['a'] (by decide)).2.2 (by decide)⟩

/-- C4: end-of-input finalization closes the final cell and appends the
final row under the same at-least-one-non-empty-cell rule (`closeRow`),
appending nothing when both buffers are empty; consequently a trailing
row without a terminating line break is never lost — appending a final
line feed to any input leaves the parse result unchanged. -/
theorem spec_c4 :
    (∀ (row : List Str) (cell : Str) (b : Bool),
        parseCSVAux [] row cell b = closeRow row cell)
    ∧ (∀ s : Str, parseCSV (s ++ ['\n']) = parseCSV s) :=
  ⟨parseCSVAux_nil, parseCSV_append_newline⟩

/-- C5: every cell of the parser output is a fixed point of `jsTrim`
(leading/trailing whitespace is stripped at cell-close time, for quoted
cells too); concretely, the quoted field `" pad ded "` parses to
`pad ded` — edge whitespace gone, interior whitespace preserved. -/
theorem spec_c5 :
    (∀ (s : Str), ∀ r ∈ parseCSV s, ∀ x ∈ r, jsTrim x = x)
    ∧ parseCSV ("x,\" pad ded \"").toList
        = [[['x'], ("pad ded").toList]] :=
  ⟨parseCSV_cells_trimmed, by decide⟩

/-- Witness for C5 at the input `" a"` whose single cell is `a`. -/
theorem spec_c5_witness :
    [['a']] ∈ parseCSV [' ', 'a'] ∧ ['a'] ∈ [['a']] ∧ jsTrim ['a'] = ['a'] :=
  ⟨by decide, by decide, spec_c5.1 [' ', 'a'] [['a']] (by decide) ['a'] (by decide)⟩

/-- C6: the formatter returns the empty string exactly when the table has
zero rows; for a non-empty table it returns the header line (from
normalized row 0), the separator line, and one data line per remaining
row, joined by single newlines with no trailing newline — so the emitted
line list has exactly `n + 1` entries for `n` rows, and when no cell
contains a line feed the output contains exactly `n` newline characters. -/
theorem spec_c6 (rows : List (List Str)) :
    (convertToMarkdownTable rows = [] ↔ rows = [])
    ∧ (rows ≠ [] →
        convertToMarkdownTable rows = List.intercalate ['\n'] (mdRowsOf rows)
        ∧ mdRowsOf rows
            = formatRow ((rows.map (normalizeRow (columnCountOf rows))).headD [])
                (columnWidthsOf rows)
              :: separatorRowOf (columnWidthsOf rows)
              :: ((rows.map (normalizeRow (columnCountOf rows))).drop 1).map
                   (fun r => formatRow r (columnWidthsOf rows))
        ∧ (mdRowsOf rows).length = rows.length + 1
        ∧ ((∀ r ∈ rows, ∀ cl ∈ r, '\n' ∉ cl) →
            (convertToMarkdownTable rows).count '\n' = rows.length)) := by
  constructor
  · constructor
    · intro h
      by_contra hne
      exact convertToMarkdownTable_ne_nil hne h
    · intro h
      rw [h]
      rfl
  · intro h
    exact ⟨convertToMarkdownTable_of_ne_nil h, mdRowsOf_eq_cons rows,
      length_mdRowsOf h, count_newline_convert h⟩

/-- Witness for C6 at the two-row table `[["a"], ["b"]]`. -/
theorem spec_c6_witness :
    ([[['a']], [['b']]] : List (List Str)) ≠ []
      ∧ (∀ r ∈ ([[['a']], [['b']]] : List (List Str)), ∀ cl ∈ r, '\n' ∉ cl)
      ∧ (convertToMarkdownTable [[['a']], [['b']]]).count '\n' = 2 :=
  ⟨by decide, by decide, ((spec_c6 [[['a']], [['b']]]).2 (by decide)).2.2.2 (by decide)⟩

/-- C7: for every column index below the column count, the computed
column width equals the maximum observed length of that column's cells
clamped below by 3; every entry of the width list is at least 3 (so every
separator dash run has length at least 3); and for the input
`Name,Age\nJohn,25\nJane,30` the widths are 4 and 3. -/
theorem spec_c7 :
    (∀ (rows : List (List Str)) (i : Nat), i < columnCountOf rows →
        (columnWidthsOf rows).getD i 0 = specColumnWidth rows i)
    ∧ (∀ (rows : List (List Str)), ∀ w ∈ columnWidthsOf rows, 3 ≤ w)
    ∧ columnWidthsOf (parseCSV ("Name,Age\nJohn,25\nJane,30").toList) = [4, 3] := by
  refine ⟨?_, fun rows w hw => mem_columnWidthsOf_ge_three hw, by decide⟩
  intro rows i h
  rw [columnWidthsOf_getD rows i h, colWidthRaw_normalize]
  rfl

/-- Witness for C7's width formula at the one-cell table `[["a"]]`. -/
theorem spec_c7_witness :
    0 < columnCountOf [[['a']]]
      ∧ (columnWidthsOf [[['a']]]).getD 0 0 = specColumnWidth [[['a']]] 0 :=
  ⟨by decide, spec_c7.1 [[['a']]] 0 (by decide)⟩

/-- C8, counterexample: a cell may itself contain a pipe character, which
the formatter does not escape; for the input `a|b` the parse is
non-empty but the header line contains 3 pipes while
`columnCount + 1 = 2`, refuting the claim as stated. -/
theorem spec_c8_counterexample :
    parseCSV ['a', '|', 'b'] ≠ []
      ∧ ¬ (∀ l ∈ mdRowsOf (parseCSV ['a', '|', 'b']),
            l.count '|' = columnCountOf (parseCSV ['a', '|', 'b']) + 1) := by
  decide

/-- C8 (amended): for every input whose parse is non-empty and whose
cells contain no pipe character, every emitted line of the formatted
output contains exactly `columnCount + 1` pipe characters, where
`columnCount` is the maximum row length of the parsed table. -/
theorem spec_c8_amended (s : Str) (h : parseCSV s ≠ [])
    (hp : ∀ r ∈ parseCSV s, ∀ cl ∈ r, '|' ∉ cl) :
    ∀ l ∈ mdRowsOf (parseCSV s), l.count '|' = columnCountOf (parseCSV s) + 1 :=
  count_pipe_mdRows h hp

/-- Witness for C8 (amended) at the input `"a"`. -/
theorem spec_c8_witness :
    parseCSV ['a'] ≠ []
      ∧ (∀ r ∈ parseCSV ['a'], ∀ cl ∈ r, '|' ∉ cl)
      ∧ ∀ l ∈ mdRowsOf (parseCSV ['a']),
          l.count '|' = columnCountOf (parseCSV ['a']) + 1 :=
  ⟨by decide, by decide, spec_c8_amended ['a'] (by decide) (by decide)⟩

/-- C10: for every input whose parse is non-empty, every cell of every
normalized row is no longer than its column's computed width (padding
never truncates), and every emitted line of the formatted output has the
same character length, `sum of columnWidths + 3·columnCount + 1`. -/
theorem spec_c10 (s : Str) (h : parseCSV s ≠ []) :
    (∀ r ∈ (parseCSV s).map (normalizeRow (columnCountOf (parseCSV s))),
        List.Forall₂ (fun cl w => cl.length ≤ w) r (columnWidthsOf (parseCSV s)))
    ∧ ∀ l ∈ mdRowsOf (parseCSV s),
        l.length = (columnWidthsOf (parseCSV s)).sum
          + 3 * columnCountOf (parseCSV s) + 1 :=
  ⟨fun r hr => cells_le_widths _ r hr, length_mdRows h⟩

/-- Witness for C10 at the input `"a"`. -/
theorem spec_c10_witness :
    parseCSV ['a'] ≠ []
      ∧ ∀ l ∈ mdRowsOf (parseCSV ['a']),
          l.length = (columnWidthsOf (parseCSV ['a'])).sum
            + 3 * columnCountOf (parseCSV ['a']) + 1 :=
  ⟨by decide, (spec_c10 ['a'] (by decide)).2⟩

/-- C9: a cell value with no comma, quote, or line terminator, embedded as
the single data cell of a header-plus-one-row CSV, parses back to exactly
its trim, and that trimmed value reappears verbatim (as a contiguous
substring, the content of the data cell slot) in the formatted output. -/
theorem spec_c9 (v : Str)
    (hv : ∀ c ∈ v, c ≠ '"' ∧ c ≠ ',' ∧ c ≠ '\n' ∧ c ≠ '\r')
    (hne : jsTrim v ≠ []) :
    parseCSV ('H' :: '\n' :: v) = [[['H']], [jsTrim v]]
      ∧ jsTrim v <:+: csvToMarkdown ('H' :: '\n' :: v) := by
  have hvne : v ≠ [] := by
    intro hcon
    rw [hcon] at hne
    exact hne rfl
  have hparse : parseCSV ('H' :: '\n' :: v) = [[['H']], [jsTrim v]] := by
    show parseCSVAux ('H' :: '\n' :: v) [] [] false = _
    rw [parseCSVAux_other 'H' ('\n' :: v) [] [] false (by decide) (by decide)
        (by decide) (by decide)]
    rw [show ([] : Str) ++ ['H'] = ['H'] from rfl]
    rw [parseCSVAux_lf]
    rw [literal_absorb v hv [] []]
    rw [show ([] : Str) ++ v = v from rfl]
    rw [parseCSVAux_nil]
    have h1 : closeRow [] ['H'] = [[['H']]] := by decide
    have h2 : closeRow [] v = [[jsTrim v]] := by
      unfold closeRow
      rw [if_pos]
      · rfl
      · simp only [List.nil_append, List.any_cons, List.any_nil, Bool.or_false,
          decide_eq_true_eq]
        exact List.length_pos.2 hne
    rw [h1, h2]
    rfl
  refine ⟨hparse, ?_⟩
  unfold csvToMarkdown
  rw [hparse]
  rw [convertToMarkdownTable_of_ne_nil (by simp)]
  have hk : columnCountOf [[['H']], [jsTrim v]] = 1 := by
    unfold columnCountOf
    simp
  have hmd : mdRowsOf [[['H']], [jsTrim v]]
      = [formatRow [['H']] (columnWidthsOf [[['H']], [jsTrim v]]),
         separatorRowOf (columnWidthsOf [[['H']], [jsTrim v]]),
         formatRow [jsTrim v] (columnWidthsOf [[['H']], [jsTrim v]])] := by
    rw [mdRowsOf_eq_cons, hk]
    simp [normalizeRow]
  obtain ⟨w₀, hw₀⟩ : ∃ w₀, columnWidthsOf [[['H']], [jsTrim v]] = [w₀] :=
    List.length_eq_one.1 (by rw [length_columnWidthsOf, hk])
  rw [hmd, hw₀]
  rw [intercalate_cons₂, intercalate_cons₂, intercalate_single]
  have hC : formatRow [jsTrim v] [w₀]
      = ['|', ' '] ++ (jsTrim v ++ List.replicate (w₀ - (jsTrim v).length) ' ')
          ++ [' ', '|'] := by
    unfold formatRow padEnd
    rw [List.zipWith_cons_cons, List.zipWith_nil_left, intercalate_single]
  rw [hC]
  refine ⟨formatRow [['H']] [w₀] ++ ['\n'] ++ separatorRowOf [w₀] ++ ['\n'] ++ ['|', ' '],
    List.replicate (w₀ - (jsTrim v).length) ' ' ++ [' ', '|'], ?_⟩
  simp [List.append_assoc]

/-- Witness for C9 at the cell value `ok`. -/
theorem spec_c9_witness :
    (∀ c ∈ (['o', 'k'] : Str), c ≠ '"' ∧ c ≠ ',' ∧ c ≠ '\n' ∧ c ≠ '\r')
      ∧ jsTrim ['o', 'k'] ≠ []
      ∧ (parseCSV ('H' :: '\n' :: ['o', 'k']) = [[['H']], [jsTrim ['o', 'k']]]
          ∧ jsTrim ['o', 'k'] <:+: csvToMarkdown ('H' :: '\n' :: ['o', 'k'])) :=
  ⟨by decide, by decide, spec_c9 ['o', 'k'] (by decide) (by decide)⟩

end CsvToMd
